import Mathlib

/-!
Shallow embedding of the sentiment-analysis core of the repository
(`src/utils/textPreprocessing.ts`, `src/utils/sentimentAnalyzer.ts`,
`src/utils/advancedPreprocessing.ts`, the routes file and the dashboard
statistics module), together with theorems settling the frozen claims.

Strings are modelled as `List Char`.  JavaScript `number` values are
modelled as `ℚ` where the code only performs field arithmetic, as `ℝ`
where it calls `Math.exp` / `Math.log` / `Math.sqrt`, and as `Option ℚ`
where a division can produce a non-finite value (`none` stands for a
non-finite JS number; in every such code path the numerator is zero as
well, so the value is precisely `NaN`).
-/

/-! ### Character classes (ASCII model of the JS regex classes) -/

/-- `\w` of JavaScript regexes: `[A-Za-z0-9_]`. -/
def isWordCharB (c : Char) : Bool :=
  (65 ≤ c.toNat && c.toNat ≤ 90) || (97 ≤ c.toNat && c.toNat ≤ 122) ||
  (48 ≤ c.toNat && c.toNat ≤ 57) || c.toNat == 95

/-- `\s` of JavaScript regexes, restricted to the ASCII whitespace characters. -/
def isSpaceB (c : Char) : Bool :=
  c.toNat == 32 || c.toNat == 9 || c.toNat == 10 || c.toNat == 13 ||
  c.toNat == 11 || c.toNat == 12

/-- ASCII uppercase letter (`[A-Z]`). -/
def isUpperB (c : Char) : Bool :=
  65 ≤ c.toNat && c.toNat ≤ 90

/-- `String.prototype.toLowerCase`, restricted to ASCII (the only characters
that survive the `\w`-based cleaning steps of the source). -/
def jsToLower (c : Char) : Char :=
  if isUpperB c then Char.ofNat (c.toNat + 32) else c

/-- Lowercase ASCII vowel test used by the syllable counter (`aeiouy`). -/
def isVowelB (c : Char) : Bool :=
  c == 'a' || c == 'e' || c == 'i' || c == 'o' || c == 'u' || c == 'y'

/-! ### JS helpers: division, `||` defaulting, splitting, whitespace collapse -/

/-- JS division on finite operands.  `none` models a non-finite result
(`NaN` when the numerator is also zero, which is the only case exercised
by the embedded code). -/
def jsDiv (a b : ℚ) : Option ℚ :=
  if b = 0 then none else some (a / b)

/-- JS `x || d` applied to a number that may be non-finite: a `NaN`
result falls back to `d`; a finite value `0` also falls back to `d`,
which coincides with `0` in every use below. -/
def jsOrQ (o : Option ℚ) (d : ℚ) : ℚ :=
  match o with
  | some v => v
  | none => d

/-- JS `String.prototype.split` with a single-character separator:
`"".split(sep) = [""]`, and empty fragments are kept. -/
def splitChar (sep : Char) : List Char → List (List Char)
  | [] => [[]]
  | c :: cs =>
    match splitChar sep cs with
    | [] => [[c]]
    | w :: ws => if c = sep then [] :: w :: ws else (c :: w) :: ws

/-- JS `String.prototype.split(/\s+/)`: splits on maximal whitespace runs,
keeping the empty fragments that JS produces at the boundaries
(`"" → [""]`, `" a" → ["", "a"]`, `"a " → ["a", ""]`). -/
def splitWS : List Char → List (List Char)
  | [] => [[]]
  | c :: cs =>
    if isSpaceB c then
      match cs with
      | c2 :: _ => if isSpaceB c2 then splitWS cs else [] :: splitWS cs
      | [] => [[], []]
    else
      match splitWS cs with
      | [] => [[c]]
      | w :: ws => (c :: w) :: ws

/-- JS `String.prototype.replace(/\s+/g, ' ')`: every maximal whitespace
run becomes a single space. -/
def collapseWS : List Char → List Char
  | [] => []
  | c :: cs =>
    let r := collapseWS cs
    if isSpaceB c then
      match r with
      | d :: _ => if d = ' ' then r else ' ' :: r
      | [] => [' ']
    else c :: r

/-- Left part of JS `String.prototype.trim` (whitespace model as above). -/
def trimLeft (l : List Char) : List Char :=
  l.dropWhile isSpaceB

/-- Right part of JS `String.prototype.trim`. -/
def trimRight (l : List Char) : List Char :=
  (l.reverse.dropWhile isSpaceB).reverse

/-- JS `String.prototype.trim`. -/
def trimWS (l : List Char) : List Char :=
  trimRight (trimLeft l)

/-- Number of maximal runs of characters satisfying `p`; this is
`(text.match(/[pp]+/g) || []).length` for a character-class regex. -/
def countRunsB (p : Char → Bool) : List Char → ℕ
  | [] => 0
  | [c] => if p c then 1 else 0
  | c :: c2 :: cs => (if p c && !(p c2) then 1 else 0) + countRunsB p (c2 :: cs)

/-- `Math.min(...xs)` over a non-empty list (`0` for `[]`, unreachable in
the guarded call sites). -/
def listMinQ : List ℚ → ℚ
  | [] => 0
  | x :: xs => xs.foldl min x

/-- `Math.max(...xs)` over a non-empty list. -/
def listMaxQ : List ℚ → ℚ
  | [] => 0
  | x :: xs => xs.foldl max x

/-! ### `src/utils/textPreprocessing.ts` -/

/-- Character step of `preprocessText`'s second stage:
`.replace(/[^\w\s]/g, ' ')`. -/
def replaceNonWord (c : Char) : Char :=
  if isWordCharB c || isSpaceB c then c else ' '

/-- `preprocessText` from `src/utils/textPreprocessing.ts`: lower-case,
replace every character that is neither a word character nor whitespace
by a space, collapse whitespace runs and trim. -/
def preprocessText (text : List Char) : List Char :=
  trimWS (collapseWS ((text.map jsToLower).map replaceNonWord))

/-- The stop-word set of `removeStopWords`. -/
def stopWords : List (List Char) :=
  (["a", "an", "and", "are", "as", "at", "be", "by", "for", "from",
    "has", "he", "in", "is", "it", "its", "of", "on", "that", "the",
    "to", "was", "will", "with", "i", "me", "my", "we", "our"]).map String.data

/-- `removeStopWords` from `src/utils/textPreprocessing.ts`. -/
def removeStopWords (text : List Char) : List Char :=
  List.intercalate [' ']
    ((splitChar ' ' text).filter
      (fun w => !(stopWords.contains w) && decide (2 < w.length)))

/-- The `features` record of `extractFeatures`. -/
structure Features where
  wordCount : ℕ
  avgWordLength : ℚ
  uniqueWords : ℕ
  lexicalDiversity : ℚ
deriving DecidableEq, Repr

/-- `extractFeatures` from `src/utils/textPreprocessing.ts`.  Note that
`words = text.split(' ')` is never empty in JS; for the empty string it
is `[""]`, so `wordCount` is `1`.  The `|| 0` guards are `jsOrQ`. -/
def extractFeatures (text : List Char) : Features :=
  let words := splitChar ' ' text
  let wordCount := words.length
  let avgWordLength :=
    jsOrQ (jsDiv ((words.map List.length).sum : ℕ) wordCount) 0
  let uniqueWords := words.dedup.length
  let lexicalDiversity := jsOrQ (jsDiv uniqueWords wordCount) 0
  { wordCount := wordCount, avgWordLength := avgWordLength,
    uniqueWords := uniqueWords, lexicalDiversity := lexicalDiversity }

/-! ### `src/utils/sentimentAnalyzer.ts`: lexicon scorer and aggregation -/

/-- The three sentiment labels of the source
(`'Positive' | 'Negative' | 'Neutral'`). -/
inductive Label where
  | Positive
  | Negative
  | Neutral
deriving DecidableEq, Repr

/-- Result shape of the third-party `sentiment` library's `analyze`. -/
structure LibResult where
  score : ℤ
  comparative : ℚ
  tokens : List (List Char)
  positive : List (List Char)
  negative : List (List Char)
deriving DecidableEq, Repr

/-- The `SentimentResult` record of `src/utils/sentimentAnalyzer.ts`. -/
structure SentimentResult where
  score : ℤ
  comparative : ℚ
  label : Label
  confidence : ℚ
  tokens : List (List Char)
  positive : List (List Char)
  negative : List (List Char)
  features : Features
deriving DecidableEq, Repr

/-- `analyzeSentiment` from `src/utils/sentimentAnalyzer.ts`, parameterised
by the third-party `sentiment.analyze` (not part of the repository).  The
unused local `withoutStopWords` of the source is kept. -/
def analyzeSentiment (analyze : List Char → LibResult) (text : List Char) :
    SentimentResult :=
  let preprocessed := preprocessText text
  let _withoutStopWords := removeStopWords preprocessed
  let result := analyze text
  let features := extractFeatures preprocessed
  let confidence := min (|result.comparative| * 100) 100
  let label : Label :=
    if result.score > 0 then .Positive
    else if result.score < 0 then .Negative
    else .Neutral
  { score := result.score, comparative := result.comparative,
    label := label, confidence := confidence, tokens := result.tokens,
    positive := result.positive, negative := result.negative,
    features := features }

/-- `batchAnalyze` from `src/utils/sentimentAnalyzer.ts`. -/
def batchAnalyze (analyze : List Char → LibResult) (reviews : List (List Char)) :
    List SentimentResult :=
  reviews.map (analyzeSentiment analyze)

/-- Modelled from the spec: the third-party `sentiment` npm package used by
`analyzeSentiment` is not part of the repository.  Spec §4.1/§4.2: tokens
are the whitespace-split words of the normalised text (empty input gives an
empty sequence); each token's polarity comes from a fixed word→integer
table, summed into `totalScore`; `comparativeScore = totalScore/tokenCount`
(`0` if there are no tokens); matched positive/negative tokens are
reported.  The polarity table is left abstract (`lexicon`). -/
def sentimentAnalyze (lexicon : List Char → ℤ) (text : List Char) : LibResult :=
  let tokens := (splitWS (preprocessText text)).filter (· ≠ [])
  let score := (tokens.map lexicon).sum
  let comparative : ℚ :=
    if tokens.length = 0 then 0 else (score : ℚ) / (tokens.length : ℚ)
  { score := score, comparative := comparative, tokens := tokens,
    positive := tokens.filter (fun t => 0 < lexicon t),
    negative := tokens.filter (fun t => lexicon t < 0) }

/-- Result shape of `aggregateResults`.  The percentage and average fields
are `Option ℚ` because the source divides by `total` without guarding
`total = 0`. -/
structure AggregateResult where
  total : ℕ
  positive : ℕ
  negative : ℕ
  neutral : ℕ
  positivePercentage : Option ℚ
  negativePercentage : Option ℚ
  neutralPercentage : Option ℚ
  avgScore : Option ℚ
  avgConfidence : Option ℚ
deriving DecidableEq, Repr

/-- `aggregateResults` from `src/utils/sentimentAnalyzer.ts`.  There is no
empty-collection guard in the source: with `total = 0` every division is
JS `0/0 = NaN` (modelled by `none`). -/
def aggregateResults (results : List SentimentResult) : AggregateResult :=
  let total := results.length
  let positive := (results.filter (fun r => r.label = Label.Positive)).length
  let negative := (results.filter (fun r => r.label = Label.Negative)).length
  let neutral := (results.filter (fun r => r.label = Label.Neutral)).length
  { total := total, positive := positive, negative := negative,
    neutral := neutral,
    positivePercentage := (jsDiv positive total).map (· * 100),
    negativePercentage := (jsDiv negative total).map (· * 100),
    neutralPercentage := (jsDiv neutral total).map (· * 100),
    avgScore := jsDiv ((results.map (fun r => (r.score : ℚ))).sum) total,
    avgConfidence := jsDiv ((results.map (fun r => r.confidence)).sum) total }

/-! ### `src/routes` (part_000): sentiment distribution -/

/-- The `SentimentAnalysisResult` interface of the routes module. -/
structure SentimentAnalysisResult where
  label : Label
  score : ℚ
deriving DecidableEq, Repr

/-- Result shape of `calculateDistribution` (percentages unguarded for
`total = 0`, as in the source). -/
structure Distribution where
  positive : ℕ
  negative : ℕ
  neutral : ℕ
  positivePercentage : Option ℚ
  negativePercentage : Option ℚ
  neutralPercentage : Option ℚ
deriving DecidableEq, Repr

/-- `calculateDistribution` from the routes module: the `else` branch of
the counting loop sends every label that is neither `Positive` nor
`Negative` to the neutral bucket. -/
def calculateDistribution (analyses : List SentimentAnalysisResult) :
    Distribution :=
  let positive := (analyses.filter (fun a => a.label = Label.Positive)).length
  let negative := (analyses.filter (fun a => a.label = Label.Negative)).length
  let neutral := (analyses.filter
      (fun a => ¬ a.label = Label.Positive ∧ ¬ a.label = Label.Negative)).length
  let total := analyses.length
  { positive := positive, negative := negative, neutral := neutral,
    positivePercentage := (jsDiv positive total).map (· * 100),
    negativePercentage := (jsDiv negative total).map (· * 100),
    neutralPercentage := (jsDiv neutral total).map (· * 100) }

/-! ### Dashboard statistics module (part_002): metrics and histogram -/

/-- The `SentimentDataPoint` record consumed by the dashboard statistics. -/
structure SentimentDataPoint where
  label : Label
  score : ℚ
  confidence : ℚ
  tokens : List (List Char)
  positive : List (List Char)
  negative : List (List Char)
  timestamp : List Char
deriving DecidableEq, Repr

/-- Result shape of `calculateSentimentMetrics`.  `stdDeviation` is real
because the source takes `Math.sqrt`. -/
structure SentimentMetrics where
  positivePercentage : ℚ
  negativePercentage : ℚ
  neutralPercentage : ℚ
  avgScore : ℚ
  avgConfidence : ℚ
  medianScore : ℚ
  stdDeviation : ℝ

/-- `calculateSentimentMetrics` from the dashboard statistics module.
Unlike `aggregateResults` it guards the empty collection explicitly and
returns all-zero metrics for it. -/
noncomputable def calculateSentimentMetrics (reviews : List SentimentDataPoint) :
    SentimentMetrics :=
  if reviews.length = 0 then
    { positivePercentage := 0, negativePercentage := 0, neutralPercentage := 0,
      avgScore := 0, avgConfidence := 0, medianScore := 0, stdDeviation := 0 }
  else
    let total := reviews.length
    let positive := (reviews.filter (fun r => r.label = Label.Positive)).length
    let negative := (reviews.filter (fun r => r.label = Label.Negative)).length
    let neutral := (reviews.filter (fun r => r.label = Label.Neutral)).length
    let scores := reviews.map (fun r => r.score)
    let avgScore := scores.sum / (total : ℚ)
    let avgConfidence := (reviews.map (fun r => r.confidence)).sum / (total : ℚ)
    let sortedScores := scores.mergeSort (fun a b => decide (a ≤ b))
    let medianScore :=
      if total % 2 = 0 then
        (sortedScores.getD (total / 2 - 1) 0 + sortedScores.getD (total / 2) 0) / 2
      else sortedScores.getD (total / 2) 0
    let variance := (scores.map (fun s => (s - avgScore) ^ 2)).sum / (total : ℚ)
    { positivePercentage := ((positive : ℚ) / (total : ℚ)) * 100,
      negativePercentage := ((negative : ℚ) / (total : ℚ)) * 100,
      neutralPercentage := ((neutral : ℚ) / (total : ℚ)) * 100,
      avgScore := avgScore, avgConfidence := avgConfidence,
      medianScore := medianScore,
      stdDeviation := Real.sqrt (variance : ℝ) }

/-- One histogram bin of `createHistogramBins`. -/
structure HBin where
  min : ℚ
  max : ℚ
  count : ℕ
deriving DecidableEq, Repr

/-- The `scores` array of `createHistogramBins`. -/
def histScores (reviews : List SentimentDataPoint) : List ℚ :=
  reviews.map (fun r => r.score)

/-- The `range` of `createHistogramBins`:
`maxScore - minScore || 1` (JS `||` replaces the falsy `0` by `1`, i.e.
when all scores are equal). -/
def histRange (reviews : List SentimentDataPoint) : ℚ :=
  if listMaxQ (histScores reviews) - listMinQ (histScores reviews) = 0 then 1
  else listMaxQ (histScores reviews) - listMinQ (histScores reviews)

/-- The `i`-th bin built by the loop of `createHistogramBins`: inclusive
bounds on both ends (`s >= min && s <= max`). -/
def histBin (reviews : List SentimentDataPoint) (binCount i : ℕ) : HBin :=
  let mn := listMinQ (histScores reviews) +
    (histRange reviews / (binCount : ℚ)) * (i : ℚ)
  let mx := listMinQ (histScores reviews) +
    (histRange reviews / (binCount : ℚ)) * ((i : ℚ) + 1)
  { min := mn, max := mx,
    count := ((histScores reviews).filter
      (fun s => decide (mn ≤ s) && decide (s ≤ mx))).length }

/-- `createHistogramBins` from the dashboard statistics module: `binCount`
equal-width bins over `[min(score), max(score)]` (range replaced by `1`
when it is `0`), membership counted with inclusive bounds on both ends. -/
def createHistogramBins (reviews : List SentimentDataPoint) (binCount : ℕ) :
    List HBin :=
  if reviews.length = 0 then []
  else (List.range binCount).map (histBin reviews binCount)

/-! ### Advanced preprocessor (part_002): `cleanText` and readability -/

/-- Characters kept verbatim by `cleanText`'s
`.replace(/[^\w\s.!?-]/g, ' ')` step. -/
def keepPunctB (c : Char) : Bool :=
  isWordCharB c || isSpaceB c || c == '.' || c == '!' || c == '?' || c == '-'

/-- Character step of that replace. -/
def replacePunct (c : Char) : Char :=
  if keepPunctB c then c else ' '

/-- Length of the URL match of `/https?:\/\/\S+/` anchored at the head of
`l`, if any: the literal scheme prefix followed by at least one
non-whitespace character (`\S+` is greedy). -/
def urlMatchLen (l : List Char) : Option ℕ :=
  if l.take 8 = ('h' :: 't' :: 't' :: 'p' :: 's' :: ':' :: '/' :: '/' :: []) then
    let ns := (l.drop 8).takeWhile (fun c => !isSpaceB c)
    if ns = [] then none else some (8 + ns.length)
  else if l.take 7 = ('h' :: 't' :: 't' :: 'p' :: ':' :: '/' :: '/' :: []) then
    let ns := (l.drop 7).takeWhile (fun c => !isSpaceB c)
    if ns = [] then none else some (7 + ns.length)
  else none

/-- Fuelled scan implementing `.replace(/https?:\/\/\S+/g, '')`; fuel is
an upper bound on the number of scan steps, each of which consumes at
least one character. -/
def stripURLsF : ℕ → List Char → List Char
  | 0, l => l
  | _ + 1, [] => []
  | fuel + 1, c :: cs =>
    match urlMatchLen (c :: cs) with
    | some n => stripURLsF fuel ((c :: cs).drop n)
    | none => c :: stripURLsF fuel cs

/-- `.replace(/https?:\/\/\S+/g, '')`. -/
def stripURLs (l : List Char) : List Char :=
  stripURLsF l.length l

/-- Length of a `/@\w+/` or `/#\w+/` match anchored at the head of `l`. -/
def tagMatchLen (tag : Char) (l : List Char) : Option ℕ :=
  match l with
  | c :: rest =>
    if c = tag then
      let run := rest.takeWhile isWordCharB
      if run = [] then none else some (1 + run.length)
    else none
  | [] => none

/-- Fuelled scan implementing `.replace(/@\w+/g, '')` (`tag = '@'`) and
`.replace(/#\w+/g, '')` (`tag = '#'`). -/
def stripTagsF (tag : Char) : ℕ → List Char → List Char
  | 0, l => l
  | _ + 1, [] => []
  | fuel + 1, c :: cs =>
    match tagMatchLen tag (c :: cs) with
    | some n => stripTagsF tag fuel ((c :: cs).drop n)
    | none => c :: stripTagsF tag fuel cs

/-- `.replace(/@\w+/g, '')` or `.replace(/#\w+/g, '')`. -/
def stripTags (tag : Char) (l : List Char) : List Char :=
  stripTagsF tag l.length l

/-- Decidable test that the word-character run `w` decomposes as a group
of length `p` followed by at least two further copies of itself — the
condition under which `\b(\w+)(\1{2,})\b` matches the whole run with
group 1 of length `p`.  The repetition count is forced to
`(w.length - p) / p` because the match must end at the closing word
boundary. -/
def validRepB (w : List Char) (p : ℕ) : Bool :=
  decide (1 ≤ p) && decide (p ≤ w.length) &&
  ((w.length - p) % p == 0) && decide (2 ≤ (w.length - p) / p) &&
  (w.drop p == (List.replicate ((w.length - p) / p) (w.take p)).flatten)

/-- The group length chosen by the backtracking regex engine for
`\b(\w+)(\1{2,})\b` on the whole word-character run `w`: `(\w+)` is
greedy, so the largest valid `p` wins; `none` when the run is not a
repetition, in which case the regex does not match anywhere inside the
run (both `\b` anchors force the match to span the full run). -/
def bestSplit (w : List Char) : Option ℕ :=
  ((List.range w.length).reverse).find? (validRepB w)

/-- Effect of `.replace(/\b(\w+)(\1{2,})\b/g, '$1')` on one maximal
word-character run. -/
def collapseRun (w : List Char) : List Char :=
  match bestSplit w with
  | some p => w.take p
  | none => w

/-- Fuelled scan applying `collapseRun` to each maximal word-character
run, leaving the separators in place — the global effect of
`.replace(/\b(\w+)(\1{2,})\b/g, '$1')`. -/
def collapseRepeatsF : ℕ → List Char → List Char
  | 0, l => l
  | _ + 1, [] => []
  | fuel + 1, c :: cs =>
    if isWordCharB c then
      collapseRun ((c :: cs).takeWhile isWordCharB) ++
        collapseRepeatsF fuel ((c :: cs).dropWhile isWordCharB)
    else c :: collapseRepeatsF fuel cs

/-- `.replace(/\b(\w+)(\1{2,})\b/g, '$1')`. -/
def collapseRepeats (l : List Char) : List Char :=
  collapseRepeatsF l.length l

/-- `cleanText` from the advanced preprocessor: lower-case, strip URLs,
`@`-mentions and `#`-hashtags, collapse whole-word repetitions, replace
the remaining disallowed characters by spaces, collapse whitespace and
trim. -/
def cleanText (text : List Char) : List Char :=
  trimWS (collapseWS
    ((collapseRepeats (stripTags '#' (stripTags '@' (stripURLs
      (text.map jsToLower))))).map replacePunct))

/-- Vowel-group onsets of `countSyllables`: `+1` for each vowel whose
predecessor is not a vowel (`prev` is the JS `previousWasVowel` flag). -/
def vowelOnsets : List Char → Bool → ℤ
  | [], _ => 0
  | c :: cs, prev =>
    (if isVowelB c && !prev then 1 else 0) + vowelOnsets cs (isVowelB c)

/-- `countSyllables` from the advanced preprocessor (result in `ℤ`
because the JS counter can be decremented before the final
`Math.max(1, ·)`). -/
def countSyllables (word : List Char) : ℤ :=
  let w := word.map jsToLower
  let count := vowelOnsets w false
  let count := count - (if w.getLast? = some 'e' then 1 else 0)
  let count := count +
    (if (decide (2 ≤ w.length) && (w.drop (w.length - 2) == ['l', 'e'])) &&
        decide (2 < w.length) && !(isVowelB (w.getD (w.length - 3) ' ')) then 1
     else 0)
  max 1 count

/-- `estimateSyllables` from the advanced preprocessor. -/
def estimateSyllables (text : List Char) : ℤ :=
  max 1 (((splitWS (text.map jsToLower)).map countSyllables).sum)

/-- `calculateReadability` from the advanced preprocessor: the clamped
Flesch Reading Ease formula, `0` when the text has no words or no
sentence-ending punctuation runs. -/
def calculateReadability (text : List Char) : ℚ :=
  let words := (splitWS text).length
  let sentences := countRunsB (fun c => c == '.' || c == '!' || c == '?') text
  if words = 0 ∨ sentences = 0 then 0
  else
    let flesch : ℚ := 206.835 - 1.015 * ((words : ℚ) / (sentences : ℚ)) -
      84.6 * ((estimateSyllables text : ℚ) / (words : ℚ))
    max 0 (min 100 flesch)

/-! ### `BertTokenizer` (sentimentAnalyzer.ts) -/

/-- The `commonTokens` array of `BertTokenizer.initializeVocab`, in source
order; the vocabulary maps each token to its index here
(`'[PAD]' ↦ 0`, …, `'[UNK]' ↦ 5`, …). -/
def commonTokens : List (List Char) :=
  (["[PAD]", "[unused0]", "[unused1]", "[unused2]", "[unused3]",
    "[UNK]", "[CLS]", "[SEP]", "[MASK]", "!", "\"", "#", "$", "%",
    "the", "a", "an", "and", "or", "of", "to", "in", "is", "it",
    "that", "this", "for", "from", "with", "by", "on", "at", "as",
    "was", "be", "been", "being", "have", "has", "had", "do", "does",
    "did", "will", "would", "could", "should", "may", "might", "must",
    "can", "product", "review", "good", "bad", "great", "terrible",
    "amazing", "awful", "love", "hate", "quality", "price", "delivery",
    "excellent", "poor", "recommend", "waste", "money", "worth",
    "value"]).map String.data

/-- The tokenizer's vocabulary as an association list (insertion order of
the JS `Map`). -/
def bertVocab : List (List Char × ℕ) :=
  commonTokens.enum.map (fun p => (p.2, p.1))

/-- `this.vocab.get(token)`. -/
def vocabGet (token : List Char) : Option ℕ :=
  bertVocab.lookup token

/-- `this.vocab.has(token)`. -/
def vocabHasB (token : List Char) : Bool :=
  (vocabGet token).isSome

/-- `BertTokenizer.canBeTokenized`: non-empty and containing a lowercase
letter or a digit (`/[a-z0-9]/`). -/
def canBeTokenizedB (subword : List Char) : Bool :=
  !subword.isEmpty &&
    subword.any (fun c =>
      (97 ≤ c.toNat && c.toNat ≤ 122) || (48 ≤ c.toNat && c.toNat ≤ 57))

/-- JS `a || b || d` over `number | undefined` where `0` and `undefined`
are falsy: used by `getTokenId`. -/
def jsOrNat (o : Option ℕ) (d : ℕ) : ℕ :=
  match o with
  | some v => if v = 0 then d else v
  | none => d

/-- `BertTokenizer.getTokenId`:
`this.vocab.get(token) || this.vocab.get('[UNK]') || 100`.  Because
`'[PAD]'` has id `0` (falsy), any token resolving to id `0` falls through
to the `'[UNK]'` id `5`. -/
def getTokenId (token : List Char) : ℕ :=
  jsOrNat (vocabGet token) (jsOrNat (vocabGet ("[UNK]".data)) 100)

/-- The subword length chosen by one iteration of the inner loop of
`BertTokenizer.tokenize`: the largest `i ≤ min 4 (length)` whose prefix is
in the vocabulary or can be tokenized, or `1` for the single-character
fallback. -/
def findSub (w : List Char) : ℕ :=
  ((((List.range (min 4 w.length)).map (· + 1)).reverse).find?
    (fun i => vocabHasB (w.take i) || canBeTokenizedB (w.take i))).getD 1

/-- The subword loop of `BertTokenizer.tokenize` applied to one word:
repeatedly split off the prefix chosen by `findSub`.  The fuel counts the
loop iterations; each iteration removes at least one character
(`findSub_pos` below), so `fuel = w.length` reproduces the JS
`while (remaining.length > 0)` loop exactly. -/
def tokenizeWordF : ℕ → List Char → List (List Char)
  | 0, _ => []
  | _ + 1, [] => []
  | fuel + 1, c :: cs =>
    (c :: cs).take (findSub (c :: cs)) ::
      tokenizeWordF fuel ((c :: cs).drop (findSub (c :: cs)))

/-- The subword loop with its exact fuel. -/
def tokenizeWord (w : List Char) : List (List Char) :=
  tokenizeWordF w.length w

/-- `BertTokenizer.tokenize`: lower-case, replace non-word non-space
characters by spaces, split on whitespace, drop empty words and apply the
greedy subword loop to each word. -/
def bertTokenize (text : List Char) : List (List Char) :=
  (((splitWS ((text.map jsToLower).map replaceNonWord)).filter
      (fun w => ¬ w.length = 0)).map tokenizeWord).flatten

/-- The `TokenIds` record of the source. -/
structure TokenIds where
  input_ids : List ℕ
  attention_mask : List ℕ
  token_type_ids : List ℕ
deriving DecidableEq, Repr

/-- `BertTokenizer.encode` with the source's configuration
(`maxLength = 512`, `clsTokenId = 101`, `sepTokenId = 102`,
`padTokenId = 0`): truncate the token list to 510 entries, wrap it in
CLS/SEP ids, then right-pad all three parallel arrays to length 512. -/
def encode (text : List Char) : TokenIds :=
  let tokens := bertTokenize text
  let truncated := tokens.take (512 - 2)
  let input_ids := 101 :: truncated.map getTokenId ++ [102]
  let attention_mask := List.replicate input_ids.length 1
  let token_type_ids := List.replicate input_ids.length 0
  if input_ids.length < 512 then
    let padLength := 512 - input_ids.length
    { input_ids := (input_ids ++ List.replicate padLength 0).take 512,
      attention_mask := (attention_mask ++ List.replicate padLength 0).take 512,
      token_type_ids := (token_type_ids ++ List.replicate padLength 0).take 512 }
  else
    { input_ids := input_ids.take 512,
      attention_mask := attention_mask.take 512,
      token_type_ids := token_type_ids.take 512 }

/-! ### `SimpleBertModel` (sentimentAnalyzer.ts) -/

/-- The `positiveWords` list of `SimpleBertModel.computeLogits`. -/
def positiveWords : List (List Char) :=
  (["good", "great", "amazing", "excellent", "love", "best", "perfect",
    "wonderful", "fantastic", "awesome"]).map String.data

/-- The `negativeWords` list of `SimpleBertModel.computeLogits`. -/
def negativeWords : List (List Char) :=
  (["bad", "terrible", "awful", "hate", "worst", "poor", "waste",
    "horrible", "disgusting", "broken"]).map String.data

/-- JS `word.includes(sub)`: substring test. -/
def containsSub (sub w : List Char) : Bool :=
  (List.range (w.length + 1)).any (fun i => sub.isPrefixOf (w.drop i))

/-- The positive accumulator of `computeLogits`: `1.5` per lower-cased
whitespace-split word containing a positive word as a substring, plus
`0.3` per `'!'` of the original text. -/
def positiveScoreOf (text : List Char) : ℚ :=
  let words := splitWS (text.map jsToLower)
  ((words.filter (fun w => positiveWords.any (fun pw => containsSub pw w))).length : ℚ)
      * 1.5 + (text.count '!' : ℚ) * 0.3

/-- The negative accumulator of `computeLogits`: `1.5` per word containing
a negative word, plus `0.2` per `'?'` of the original text. -/
def negativeScoreOf (text : List Char) : ℚ :=
  let words := splitWS (text.map jsToLower)
  ((words.filter (fun w => negativeWords.any (fun nw => containsSub nw w))).length : ℚ)
      * 1.5 + (text.count '?' : ℚ) * 0.2

/-- `encoded.attention_mask.filter(a => a === 1).length` of
`computeLogits`: the number of non-padding positions. -/
def tokenCountOf (text : List Char) : ℕ :=
  ((encode text).attention_mask.filter (fun a => a == 1)).length

/-- `SimpleBertModel.computeLogits` as the logit triple
`[positiveScore, negativeScore, log(tokenCount / 10)]`. -/
noncomputable def computeLogits (text : List Char) : ℝ × ℝ × ℝ :=
  ((positiveScoreOf text : ℚ), (negativeScoreOf text : ℚ),
    Real.log ((tokenCountOf text : ℝ) / 10))

/-- `SimpleBertModel.applySoftmax`: numerically-stable softmax over the
three logits. -/
noncomputable def applySoftmax (l : ℝ × ℝ × ℝ) : ℝ × ℝ × ℝ :=
  let m := max l.1 (max l.2.1 l.2.2)
  let e1 := Real.exp (l.1 - m)
  let e2 := Real.exp (l.2.1 - m)
  let e3 := Real.exp (l.2.2 - m)
  let s := e1 + e2 + e3
  (e1 / s, e2 / s, e3 / s)

/-- The predicted class: `'positive' | 'negative' | 'neutral'`. -/
inductive PClass where
  | positive
  | negative
  | neutral
deriving DecidableEq, Repr

/-- `SimpleBertModel.getClass`: `indexOf(Math.max(...))`, resolving ties
toward the earlier index. -/
noncomputable def getClass (p : ℝ × ℝ × ℝ) : PClass :=
  if p.2.1 ≤ p.1 ∧ p.2.2 ≤ p.1 then .positive
  else if p.2.2 ≤ p.2.1 then .negative
  else .neutral

/-- The `SentimentPrediction` record of the source. -/
structure SentimentPrediction where
  positive : ℝ
  negative : ℝ
  neutral : ℝ
  predicted_class : PClass
  confidence : ℝ
  raw_logits : ℝ × ℝ × ℝ

/-- `SimpleBertModel.predict`. -/
noncomputable def predict (text : List Char) : SentimentPrediction :=
  let logits := computeLogits text
  let softmax := applySoftmax logits
  { positive := softmax.1, negative := softmax.2.1, neutral := softmax.2.2,
    predicted_class := getClass softmax,
    confidence := max softmax.1 (max softmax.2.1 softmax.2.2) * 100,
    raw_logits := logits }

/-- The number of non-padding positions `encode` produces: the CLS and
SEP markers plus the (possibly truncated) token count. -/
def realTokenLen (text : List Char) : ℕ :=
  min (bertTokenize text).length 510 + 2

/-! ## Theorems -/

/-- C1: for every input string, the label returned by `analyzeSentiment`
is `Positive` iff `totalScore > 0`, `Negative` iff `totalScore < 0`,
`Neutral` iff `totalScore = 0`, and no other label value is produced.
The third-party lexicon lookup is abstract: the property holds for every
possible `analyze` result because the label branch is exhaustive over the
sign of `result.score`. -/
theorem analyzeSentiment_label_iff_sign (analyze : List Char → LibResult)
    (text : List Char) :
    ((analyzeSentiment analyze text).label = Label.Positive ↔
      0 < (analyzeSentiment analyze text).score) ∧
    ((analyzeSentiment analyze text).label = Label.Negative ↔
      (analyzeSentiment analyze text).score < 0) ∧
    ((analyzeSentiment analyze text).label = Label.Neutral ↔
      (analyzeSentiment analyze text).score = 0) ∧
    ((analyzeSentiment analyze text).label = Label.Positive ∨
      (analyzeSentiment analyze text).label = Label.Negative ∨
      (analyzeSentiment analyze text).label = Label.Neutral) := by
  unfold analyzeSentiment
  rcases lt_trichotomy ((analyze text).score) 0 with h | h | h
  · have h1 : ¬ (0 < (analyze text).score) := by omega
    simp [h, h1]
    omega
  · simp [h]
  · have h1 : ¬ ((analyze text).score < 0) := by omega
    simp [h, h1]
    omega

/-- Each iteration of the subword loop chooses a split length of at least
one character (the single-character fallback `getD 1`, or a found prefix
length drawn from `[1, …, min 4 len]`). -/
lemma findSub_pos (w : List Char) : 1 ≤ findSub w := by
  unfold findSub
  cases hf : (((List.range (min 4 w.length)).map (· + 1)).reverse).find?
      (fun i => vocabHasB (w.take i) || canBeTokenizedB (w.take i)) with
  | none => simp
  | some i =>
    have hmem := List.mem_of_find?_eq_some hf
    rw [List.mem_reverse, List.mem_map] at hmem
    obtain ⟨a, _, ha⟩ := hmem
    simp [← ha]

/-- The remaining word strictly shrinks in every subword-loop iteration. -/
lemma drop_findSub_lt (w : List Char) (h : w ≠ []) :
    (w.drop (findSub w)).length < w.length := by
  have h1 := findSub_pos w
  have h2 : 0 < w.length := List.length_pos.mpr h
  rw [List.length_drop]
  omega

/-- With enough fuel, the emitted subwords concatenate back to the word:
every character is consumed exactly once. -/
lemma tokenizeWordF_flatten (fuel : ℕ) :
    ∀ w : List Char, w.length ≤ fuel → (tokenizeWordF fuel w).flatten = w := by
  induction fuel with
  | zero =>
    intro w hw
    have : w = [] := List.eq_nil_of_length_eq_zero (by omega)
    subst this
    simp [tokenizeWordF]
  | succ n ih =>
    intro w hw
    cases w with
    | nil => simp [tokenizeWordF]
    | cons c cs =>
      have hlt := drop_findSub_lt (c :: cs) (List.cons_ne_nil c cs)
      rw [tokenizeWordF, List.flatten_cons, ih _ (by omega)]
      exact List.take_append_drop _ _

/-- With enough fuel, a word of length `n` yields at most `n` subwords. -/
lemma tokenizeWordF_length_le (fuel : ℕ) :
    ∀ w : List Char, w.length ≤ fuel → (tokenizeWordF fuel w).length ≤ w.length := by
  induction fuel with
  | zero =>
    intro w hw
    have : w = [] := List.eq_nil_of_length_eq_zero (by omega)
    subst this
    simp [tokenizeWordF]
  | succ n ih =>
    intro w hw
    cases w with
    | nil => simp [tokenizeWordF]
    | cons c cs =>
      have hlt := drop_findSub_lt (c :: cs) (List.cons_ne_nil c cs)
      have hrec := ih ((c :: cs).drop (findSub (c :: cs))) (by omega)
      have hc : (c :: cs).length = cs.length + 1 := rfl
      rw [tokenizeWordF]
      simp only [List.length_cons]
      omega

/-- C9: every iteration of the subword-tokenization loop removes at least
one character from the remaining word (matched prefix or single-character
fallback), so the loop terminates; consequently the subwords of a word
concatenate back to the word, and their number is bounded by the word's
length.  `tokenizeWord`, `bertTokenize`, `encode` and `predict` are total
Lean functions built from this loop. -/
theorem tokenize_terminates_bounded :
    (∀ w : List Char, w ≠ [] → (w.drop (findSub w)).length < w.length) ∧
    (∀ w : List Char, (tokenizeWord w).flatten = w) ∧
    (∀ w : List Char, (tokenizeWord w).length ≤ w.length) :=
  ⟨drop_findSub_lt,
   fun w => tokenizeWordF_flatten w.length w le_rfl,
   fun w => tokenizeWordF_length_le w.length w le_rfl⟩

/-- Witness for C9 at the concrete word `"hello"`. -/
theorem tokenize_terminates_bounded_witness :
    ("hello".data.drop (findSub "hello".data)).length < "hello".data.length :=
  tokenize_terminates_bounded.1 ("hello".data) (by decide)

/-- Length of the unpadded id sequence built by `encode`:
CLS + truncated tokens + SEP. -/
lemma ids0_length (text : List Char) :
    (101 :: ((bertTokenize text).take 510).map getTokenId ++ [102]).length =
      realTokenLen text := by
  simp [realTokenLen, List.length_take]
  omega

lemma realTokenLen_le (text : List Char) : realTokenLen text ≤ 512 := by
  unfold realTokenLen
  have := Nat.min_le_right ((bertTokenize text).length) 510
  omega

lemma realTokenLen_ge (text : List Char) : 2 ≤ realTokenLen text := by
  unfold realTokenLen
  omega

/-- Closed form of `encode`: the unpadded ids followed by pad zeros, the
attention mask `1…10…0`, and an all-zero segment array. -/
lemma encode_spec (text : List Char) :
    (encode text).input_ids =
      (101 :: ((bertTokenize text).take 510).map getTokenId ++ [102]) ++
        List.replicate (512 - realTokenLen text) 0 ∧
    (encode text).attention_mask =
      List.replicate (realTokenLen text) 1 ++
        List.replicate (512 - realTokenLen text) 0 ∧
    (encode text).token_type_ids = List.replicate 512 0 := by
  have h0 := ids0_length text
  have hle := realTokenLen_le text
  unfold encode
  simp only [show (512 : ℕ) - 2 = 510 from rfl, h0]
  by_cases hlt : realTokenLen text < 512
  · rw [if_pos hlt]
    refine ⟨?_, ?_, ?_⟩ <;> dsimp only
    · apply List.take_of_length_le
      simp only [List.length_append, List.length_replicate, h0]
      omega
    · apply List.take_of_length_le
      rw [List.length_append, List.length_replicate, List.length_replicate]
      omega
    · rw [List.take_of_length_le
        (by rw [List.length_append, List.length_replicate, List.length_replicate]; omega),
        ← List.replicate_add]
      congr 1
      omega
  · rw [if_neg hlt]
    have h512 : realTokenLen text = 512 := by omega
    have hz : 512 - realTokenLen text = 0 := by omega
    rw [hz]
    refine ⟨?_, ?_, ?_⟩ <;> dsimp only
    · rw [List.replicate_zero, List.append_nil]
      apply List.take_of_length_le
      rw [h0]
      omega
    · rw [List.replicate_zero, List.append_nil]
      apply List.take_of_length_le
      rw [List.length_replicate]
      omega
    · rw [h512]
      apply List.take_of_length_le
      rw [List.length_replicate]

/-- The non-padding position count seen by `computeLogits` is exactly
CLS + SEP + the truncated token count. -/
lemma tokenCountOf_eq (text : List Char) :
    tokenCountOf text = realTokenLen text := by
  unfold tokenCountOf
  rw [(encode_spec text).2.1, List.filter_append, List.filter_replicate,
    List.filter_replicate]
  norm_num

/-- `getTokenId` never returns `0`: the `[PAD]` entry's id `0` is falsy in
JS, so the `||` chain falls through to the `[UNK]` id `5`. -/
lemma getTokenId_ne_zero (tok : List Char) : getTokenId tok ≠ 0 := by
  unfold getTokenId
  have h5 : jsOrNat (vocabGet ("[UNK]".data)) 100 = 5 := by decide
  rw [h5]
  cases h : vocabGet tok with
  | none => simp [jsOrNat]
  | some v =>
    by_cases hv : v = 0 <;> simp [jsOrNat, hv]

/-- C10: `encode` returns three arrays of identical length exactly 512;
the attention mask is 1 on the first `realTokenLen` positions and 0 on
the rest (exactly the padding positions), the padding positions of
`input_ids` hold the pad id 0, and no real-token position holds id 0
(because `getTokenId`'s falsy-`||` fallback maps a 0 vocabulary id to the
`[UNK]` id). -/
theorem encode_fixed_length_mask_pad (text : List Char) :
    (encode text).input_ids.length = 512 ∧
    (encode text).attention_mask.length = 512 ∧
    (encode text).token_type_ids.length = 512 ∧
    (encode text).attention_mask =
      List.replicate (realTokenLen text) 1 ++
        List.replicate (512 - realTokenLen text) 0 ∧
    (encode text).input_ids.drop (realTokenLen text) =
      List.replicate (512 - realTokenLen text) 0 ∧
    ((encode text).input_ids.take (realTokenLen text)).all
      (fun x => decide (¬ x = 0)) = true := by
  obtain ⟨hi, ha, ht⟩ := encode_spec text
  have h0 := ids0_length text
  have hle := realTokenLen_le text
  refine ⟨?_, ?_, ?_, ha, ?_, ?_⟩
  · rw [hi, List.length_append, h0, List.length_replicate]
    omega
  · rw [ha, List.length_append, List.length_replicate, List.length_replicate]
    omega
  · rw [ht, List.length_replicate]
  · rw [hi, ← h0, List.drop_left]
  · rw [hi, ← h0, List.take_left, List.all_eq_true]
    intro x hx
    simp only [decide_eq_true_eq]
    rcases List.mem_cons.mp hx with h1 | h1
    · omega
    rcases List.mem_append.mp h1 with h2 | h2
    · obtain ⟨tok, _, htok⟩ := List.mem_map.mp h2
      rw [← htok]
      exact getTokenId_ne_zero tok
    · have : x = 102 := by simpa using h2
      omega

/-- The three softmax outputs of `applySoftmax` lie in `[0, 1]` and sum
to exactly 1, for any logit triple. -/
lemma applySoftmax_bounds (l : ℝ × ℝ × ℝ) :
    (0 ≤ (applySoftmax l).1 ∧ (applySoftmax l).1 ≤ 1) ∧
    (0 ≤ (applySoftmax l).2.1 ∧ (applySoftmax l).2.1 ≤ 1) ∧
    (0 ≤ (applySoftmax l).2.2 ∧ (applySoftmax l).2.2 ≤ 1) ∧
    (applySoftmax l).1 + (applySoftmax l).2.1 + (applySoftmax l).2.2 = 1 := by
  unfold applySoftmax
  dsimp only
  set m := max l.1 (max l.2.1 l.2.2) with hm
  have he1 : 0 < Real.exp (l.1 - m) := Real.exp_pos _
  have he2 : 0 < Real.exp (l.2.1 - m) := Real.exp_pos _
  have he3 : 0 < Real.exp (l.2.2 - m) := Real.exp_pos _
  set e1 := Real.exp (l.1 - m)
  set e2 := Real.exp (l.2.1 - m)
  set e3 := Real.exp (l.2.2 - m)
  have hs : 0 < e1 + e2 + e3 := by linarith
  refine ⟨⟨?_, ?_⟩, ⟨?_, ?_⟩, ⟨?_, ?_⟩, ?_⟩
  · positivity
  · rw [div_le_one hs]; linarith
  · positivity
  · rw [div_le_one hs]; linarith
  · positivity
  · rw [div_le_one hs]; linarith
  · rw [div_add_div_same, div_add_div_same, div_self hs.ne']

/-- C2: for every input string (including the empty one) the three
probabilities returned by `predict` are each in `[0, 1]` and sum to
exactly 1 (hence within any floating tolerance); the attention mask
always contains at least the CLS and SEP positions, so the neutral
logit's argument `tokenCount / 10` is strictly positive and the logit is
a finite real. -/
theorem predict_probabilities_valid (text : List Char) :
    (0 ≤ (predict text).positive ∧ (predict text).positive ≤ 1) ∧
    (0 ≤ (predict text).negative ∧ (predict text).negative ≤ 1) ∧
    (0 ≤ (predict text).neutral ∧ (predict text).neutral ≤ 1) ∧
    (predict text).positive + (predict text).negative + (predict text).neutral = 1 ∧
    2 ≤ tokenCountOf text ∧
    (0 : ℝ) < (tokenCountOf text : ℝ) / 10 := by
  have hb := applySoftmax_bounds (computeLogits text)
  have hc : 2 ≤ tokenCountOf text := by
    rw [tokenCountOf_eq]
    exact realTokenLen_ge text
  refine ⟨?_, ?_, ?_, ?_, hc, ?_⟩
  · exact hb.1
  · exact hb.2.1
  · exact hb.2.2.1
  · exact hb.2.2.2
  · have : (0 : ℝ) < (tokenCountOf text : ℝ) := by
      exact_mod_cast Nat.lt_of_lt_of_le Nat.zero_lt_two hc
    positivity

/-- C3 counterexample: on the empty collection `aggregateResults` divides
zero by zero, so its average and percentage fields are the non-finite JS
value `NaN` (modelled `none`), not the numeric zero the claim asserts. -/
theorem aggregateResults_empty_not_zero :
    (aggregateResults []).avgScore = none ∧
    (aggregateResults []).positivePercentage = none ∧
    ¬ ((aggregateResults []).avgScore = some 0) := by
  refine ⟨rfl, rfl, ?_⟩
  intro h
  exact Option.noConfusion h

/-- C3 (amended): on the empty collection `calculateSentimentMetrics`
returns all-zero metrics (it guards `length === 0` explicitly), and
`aggregateResults` returns zero counts but `NaN` percentages and
averages, because its divisions by `total` are unguarded. -/
theorem empty_aggregation_behavior :
    (calculateSentimentMetrics []).positivePercentage = 0 ∧
    (calculateSentimentMetrics []).negativePercentage = 0 ∧
    (calculateSentimentMetrics []).neutralPercentage = 0 ∧
    (calculateSentimentMetrics []).avgScore = 0 ∧
    (calculateSentimentMetrics []).avgConfidence = 0 ∧
    (calculateSentimentMetrics []).medianScore = 0 ∧
    (calculateSentimentMetrics []).stdDeviation = 0 ∧
    (aggregateResults []).total = 0 ∧
    (aggregateResults []).positive = 0 ∧
    (aggregateResults []).negative = 0 ∧
    (aggregateResults []).neutral = 0 ∧
    (aggregateResults []).positivePercentage = none ∧
    (aggregateResults []).negativePercentage = none ∧
    (aggregateResults []).neutralPercentage = none ∧
    (aggregateResults []).avgScore = none ∧
    (aggregateResults []).avgConfidence = none :=
  ⟨rfl, rfl, rfl, rfl, rfl, rfl, rfl, rfl, rfl, rfl, rfl, rfl, rfl, rfl, rfl, rfl⟩

/-- Every record's label is exactly one of the three constructors, so the
three label filters of `aggregateResults` partition the collection. -/
lemma label_counts_sum (rs : List SentimentResult) :
    (rs.filter (fun r => r.label = Label.Positive)).length +
    (rs.filter (fun r => r.label = Label.Negative)).length +
    (rs.filter (fun r => r.label = Label.Neutral)).length = rs.length := by
  induction rs with
  | nil => simp
  | cons r rs ih =>
    cases h : r.label <;> simp [List.filter_cons, h] <;> omega

/-- The `else` bucket of `calculateDistribution` is exactly the `Neutral`
label. -/
lemma dist_neutral_filter (as : List SentimentAnalysisResult) :
    as.filter (fun a => ¬ a.label = Label.Positive ∧ ¬ a.label = Label.Negative) =
    as.filter (fun a => a.label = Label.Neutral) := by
  apply List.filter_congr
  intro a _
  cases h : a.label <;> simp [h]

/-- The three buckets of `calculateDistribution` partition the
collection. -/
lemma dist_counts_sum (as : List SentimentAnalysisResult) :
    (as.filter (fun a => a.label = Label.Positive)).length +
    (as.filter (fun a => a.label = Label.Negative)).length +
    (as.filter (fun a =>
      ¬ a.label = Label.Positive ∧ ¬ a.label = Label.Negative)).length = as.length := by
  rw [dist_neutral_filter]
  induction as with
  | nil => simp
  | cons a as ih =>
    cases h : a.label <;> simp [List.filter_cons, h] <;> omega

/-- C7: for every non-empty collection, the three percentages produced by
`aggregateResults` (and likewise by `calculateDistribution`) are finite
and sum to exactly 100, because every record's label is exactly one of
Positive, Negative, Neutral. -/
theorem percentages_sum_to_100 (rs : List SentimentResult)
    (as : List SentimentAnalysisResult) (h1 : rs ≠ []) (h2 : as ≠ []) :
    (∃ p n u : ℚ, (aggregateResults rs).positivePercentage = some p ∧
      (aggregateResults rs).negativePercentage = some n ∧
      (aggregateResults rs).neutralPercentage = some u ∧ p + n + u = 100) ∧
    (∃ p n u : ℚ, (calculateDistribution as).positivePercentage = some p ∧
      (calculateDistribution as).negativePercentage = some n ∧
      (calculateDistribution as).neutralPercentage = some u ∧ p + n + u = 100) := by
  constructor
  · have hl : ((rs.length : ℚ)) ≠ 0 := by
      rw [Nat.cast_ne_zero]
      intro hc
      exact h1 (List.eq_nil_of_length_eq_zero hc)
    have hsum := label_counts_sum rs
    unfold aggregateResults
    dsimp only
    simp only [jsDiv, if_neg hl, Option.map_some']
    refine ⟨_, _, _, rfl, rfl, rfl, ?_⟩
    have hq : ((rs.filter (fun r => r.label = Label.Positive)).length : ℚ) +
        ((rs.filter (fun r => r.label = Label.Negative)).length : ℚ) +
        ((rs.filter (fun r => r.label = Label.Neutral)).length : ℚ) =
        (rs.length : ℚ) := by exact_mod_cast congrArg (Nat.cast : ℕ → ℚ) hsum
    field_simp
    linarith
  · have hl : ((as.length : ℚ)) ≠ 0 := by
      rw [Nat.cast_ne_zero]
      intro hc
      exact h2 (List.eq_nil_of_length_eq_zero hc)
    have hsum := dist_counts_sum as
    rw [dist_neutral_filter] at hsum
    unfold calculateDistribution
    dsimp only
    rw [dist_neutral_filter]
    simp only [jsDiv, if_neg hl, Option.map_some']
    refine ⟨_, _, _, rfl, rfl, rfl, ?_⟩
    have hq : ((as.filter (fun a => a.label = Label.Positive)).length : ℚ) +
        ((as.filter (fun a => a.label = Label.Negative)).length : ℚ) +
        ((as.filter (fun a => a.label = Label.Neutral)).length : ℚ) =
        (as.length : ℚ) := by exact_mod_cast congrArg (Nat.cast : ℕ → ℚ) hsum
    field_simp
    linarith

/-- Witness for C7 at a concrete one-element collection. -/
theorem percentages_sum_to_100_witness :
    ∃ p n u : ℚ,
      (aggregateResults [⟨1, 0, Label.Positive, 0, [], [], [], ⟨0, 0, 0, 0⟩⟩]).positivePercentage
        = some p ∧
      (aggregateResults [⟨1, 0, Label.Positive, 0, [], [], [], ⟨0, 0, 0, 0⟩⟩]).negativePercentage
        = some n ∧
      (aggregateResults [⟨1, 0, Label.Positive, 0, [], [], [], ⟨0, 0, 0, 0⟩⟩]).neutralPercentage
        = some u ∧ p + n + u = 100 :=
  (percentages_sum_to_100 [⟨1, 0, Label.Positive, 0, [], [], [], ⟨0, 0, 0, 0⟩⟩]
    [⟨Label.Positive, 1⟩] (List.cons_ne_nil _ _) (List.cons_ne_nil _ _)).1

lemma foldl_min_le_init (xs : List ℚ) : ∀ x : ℚ, xs.foldl min x ≤ x := by
  induction xs with
  | nil => intro x; simp
  | cons a xs ih =>
    intro x
    calc (a :: xs).foldl min x = xs.foldl min (min x a) := rfl
    _ ≤ min x a := ih _
    _ ≤ x := min_le_left _ _

lemma init_le_foldl_max (xs : List ℚ) : ∀ x : ℚ, x ≤ xs.foldl max x := by
  induction xs with
  | nil => intro x; simp
  | cons a xs ih =>
    intro x
    calc x ≤ max x a := le_max_left _ _
    _ ≤ xs.foldl max (max x a) := ih _
    _ = (a :: xs).foldl max x := rfl

/-- `Math.min` of a non-empty score list never exceeds its `Math.max`. -/
lemma listMinQ_le_listMaxQ (l : List ℚ) (h : l ≠ []) :
    listMinQ l ≤ listMaxQ l := by
  cases l with
  | nil => exact absurd rfl h
  | cons x xs =>
    calc listMinQ (x :: xs) = xs.foldl min x := rfl
    _ ≤ x := foldl_min_le_init xs x
    _ ≤ xs.foldl max x := init_le_foldl_max xs x
    _ = listMaxQ (x :: xs) := rfl

/-- The histogram range is strictly positive for non-empty input: the
score spread when the scores differ, and the substituted `1` otherwise. -/
lemma histRange_pos (rs : List SentimentDataPoint) (h : rs ≠ []) :
    0 < histRange rs := by
  have hne : histScores rs ≠ [] := by
    unfold histScores
    simpa using h
  have hle := listMinQ_le_listMaxQ _ hne
  unfold histRange
  split
  · norm_num
  · rename_i hne2
    have : listMinQ (histScores rs) < listMaxQ (histScores rs) := by
      rcases lt_or_eq_of_le hle with h1 | h1
      · exact h1
      · exact absurd (by rw [h1]; ring) hne2
    linarith

/-- C8: for every non-empty review collection, `createHistogramBins`
produces exactly 10 bins; bin `i` spans
`[min + width·i, min + width·(i+1)]` with the common width
`range / 10` (where the range is `max - min`, or the substituted `1` when
all scores are equal); membership is counted with inclusive bounds on
both ends; adjacent bins share their boundary, and a score lying exactly
on a shared boundary is counted in both adjoining bins. -/
theorem createHistogramBins_spec (rs : List SentimentDataPoint) (h : rs ≠ []) :
    (createHistogramBins rs 10).length = 10 ∧
    (∀ i, i < 10 → (createHistogramBins rs 10)[i]? = some (histBin rs 10 i)) ∧
    (∀ i, (histBin rs 10 i).min =
        listMinQ (histScores rs) + (histRange rs / 10) * (i : ℚ) ∧
      (histBin rs 10 i).max =
        listMinQ (histScores rs) + (histRange rs / 10) * ((i : ℚ) + 1) ∧
      (histBin rs 10 i).max - (histBin rs 10 i).min = histRange rs / 10 ∧
      (histBin rs 10 i).count = ((histScores rs).filter
        (fun s => decide ((histBin rs 10 i).min ≤ s) &&
          decide (s ≤ (histBin rs 10 i).max))).length) ∧
    (∀ i, (histBin rs 10 i).max = (histBin rs 10 (i + 1)).min) ∧
    (∀ i s, s ∈ histScores rs → s = (histBin rs 10 i).max →
      1 ≤ (histBin rs 10 i).count ∧ 1 ≤ (histBin rs 10 (i + 1)).count) := by
  have hlen : rs.length ≠ 0 := fun hc => h (List.eq_nil_of_length_eq_zero hc)
  have hw : 0 < histRange rs / 10 := by
    have := histRange_pos rs h
    positivity
  refine ⟨?_, ?_, ?_, ?_, ?_⟩
  · unfold createHistogramBins
    rw [if_neg hlen, List.length_map, List.length_range]
  · intro i hi
    unfold createHistogramBins
    rw [if_neg hlen, List.getElem?_map, List.getElem?_range hi, Option.map_some']
  · intro i
    refine ⟨rfl, rfl, by unfold histBin; ring, rfl⟩
  · intro i
    unfold histBin
    dsimp only
    push_cast
    ring
  · intro i s hs hmax
    have hmin_le : (histBin rs 10 i).min ≤ (histBin rs 10 i).max := by
      unfold histBin
      dsimp only
      nlinarith [hw]
    constructor
    · have hmem : s ∈ (histScores rs).filter
          (fun t => decide ((histBin rs 10 i).min ≤ t) &&
            decide (t ≤ (histBin rs 10 i).max)) := by
        rw [List.mem_filter]
        refine ⟨hs, ?_⟩
        rw [hmax]
        simp [hmin_le]
      calc 1 ≤ ((histScores rs).filter
          (fun t => decide ((histBin rs 10 i).min ≤ t) &&
            decide (t ≤ (histBin rs 10 i).max))).length := by
            exact List.length_pos.mpr (List.ne_nil_of_mem hmem)
      _ = (histBin rs 10 i).count := rfl
    · have hshift : (histBin rs 10 i).max = (histBin rs 10 (i + 1)).min := by
        unfold histBin
        dsimp only
        push_cast
        ring
      have hnext_le : (histBin rs 10 (i + 1)).min ≤ (histBin rs 10 (i + 1)).max := by
        unfold histBin
        dsimp only
        nlinarith [hw]
      have hmem : s ∈ (histScores rs).filter
          (fun t => decide ((histBin rs 10 (i + 1)).min ≤ t) &&
            decide (t ≤ (histBin rs 10 (i + 1)).max)) := by
        rw [List.mem_filter]
        refine ⟨hs, ?_⟩
        rw [hmax, hshift]
        simp [hnext_le]
      calc 1 ≤ ((histScores rs).filter
          (fun t => decide ((histBin rs 10 (i + 1)).min ≤ t) &&
            decide (t ≤ (histBin rs 10 (i + 1)).max))).length := by
            exact List.length_pos.mpr (List.ne_nil_of_mem hmem)
      _ = (histBin rs 10 (i + 1)).count := rfl

/-- Witness for C8 at a concrete two-review collection. -/
theorem createHistogramBins_spec_witness :
    (createHistogramBins [⟨Label.Positive, 0, 0, [], [], [], []⟩,
      ⟨Label.Negative, 1, 0, [], [], [], []⟩] 10).length = 10 :=
  (createHistogramBins_spec _ (List.cons_ne_nil _ _)).1

/-- A valid repetition split has its group inside the word: the group is
non-empty and followed by at least two copies of itself, so its length is
less than a third of the word. -/
lemma validRepB_bounds (w : List Char) (p : ℕ) (h : validRepB w p = true) :
    1 ≤ p ∧ p < w.length := by
  unfold validRepB at h
  simp only [Bool.and_eq_true, decide_eq_true_eq, beq_iff_eq] at h
  obtain ⟨⟨⟨⟨h1, h2⟩, h3⟩, h4⟩, h5⟩ := h
  have hp : 0 < p := h1
  have h2p : 2 * p ≤ w.length - p := (Nat.le_div_iff_mul_le hp).mp h4
  exact ⟨h1, by omega⟩

/-- C5 counterexample: `cleanText("amazingggg")` is `"amazingggg"`, not
the `"amazing"` the claim asserts — the regex
`\b(\w+)(\1{2,})\b` is anchored at word boundaries on both sides, and
`"amazingggg"` is not a whole-word repetition. -/
theorem cleanText_amazingggg_unchanged :
    cleanText "amazingggg".data = "amazingggg".data ∧
    ¬ (cleanText "amazingggg".data = "amazing".data) := by
  exact ⟨by decide, by decide⟩

/-- C5 (amended): the repeated-group rule of `cleanText` fires only on
whole words.  `"amazingggg"` is unchanged; a word that *is* a group
followed by two or more repeats of itself collapses to the (greedily
longest) group, as in `"hahaha" → "ha"` and `"amazing ggg" → "amazing g"`;
in general `collapseRun` either leaves a word-character run unchanged
(when no whole-run repetition split exists) or returns a strictly shorter
split prefix, and it always fires when a valid split exists. -/
theorem cleanText_repeat_whole_word :
    cleanText "amazingggg".data = "amazingggg".data ∧
    cleanText "hahaha".data = "ha".data ∧
    cleanText "amazing ggg".data = "amazing g".data ∧
    (∀ w : List Char, collapseRun w = w ∨
      ∃ p, validRepB w p = true ∧ collapseRun w = w.take p ∧
        (w.take p).length < w.length) ∧
    (∀ w : List Char, ∀ p, validRepB w p = true → ¬ collapseRun w = w) := by
  refine ⟨by decide, by decide, by decide, ?_, ?_⟩
  · intro w
    unfold collapseRun
    cases hb : bestSplit w with
    | none => exact Or.inl rfl
    | some p =>
      have hval := List.find?_some hb
      have hlt := (validRepB_bounds w p hval).2
      refine Or.inr ⟨p, hval, rfl, ?_⟩
      rw [List.length_take]
      omega
  · intro w p hval hcon
    have hb := validRepB_bounds w p hval
    unfold collapseRun at hcon
    cases hfind : bestSplit w with
    | none =>
      have hnone := List.find?_eq_none.mp hfind p
        (by rw [List.mem_reverse, List.mem_range]; exact hb.2)
      exact hnone hval
    | some q =>
      simp only [hfind] at hcon
      have hcon2 : w.take q = w := hcon
      have hq := validRepB_bounds w q (List.find?_some hfind)
      have hlt : (w.take q).length < w.length := by
        rw [List.length_take]
        omega
      rw [hcon2] at hlt
      omega

/-- Witness for C5 (amended) at the concrete run `"hahaha"` with the
valid split `p = 2`. -/
theorem cleanText_repeat_whole_word_witness :
    ¬ collapseRun "hahaha".data = "hahaha".data :=
  cleanText_repeat_whole_word.2.2.2.2 ("hahaha".data) 2 (by decide)

/-- C4 counterexample: in JS, `"".split(' ')` is `[""]`, so on the empty
string `extractFeatures` reports `wordCount = 1` (and `uniqueWords = 1`),
not the `0` the claim asserts. -/
theorem extractFeatures_empty_not_all_zero :
    (extractFeatures (preprocessText "".data)).wordCount = 1 ∧
    (extractFeatures (preprocessText "".data)).uniqueWords = 1 ∧
    ¬ ((extractFeatures (preprocessText "".data)).wordCount = 0) := by
  refine ⟨rfl, rfl, ?_⟩
  intro h
  exact Nat.noConfusion h

/-- C4 (amended): for the empty string, `wordCount = 1`, `uniqueWords = 1`
and `lexicalDiversity = 1` (JS split yields one empty token) while
`avgWordLength = 0`; `readabilityScore = 0`; the lexicon label is
`Neutral` with total score `0` (for every polarity table, since there are
no tokens — the table is the spec-modelled stand-in for the `sentiment`
package); and the classifier still returns a valid distribution summing
to 1. -/
theorem empty_string_behavior (lex : List Char → ℤ) :
    (extractFeatures (preprocessText "".data)).wordCount = 1 ∧
    (extractFeatures (preprocessText "".data)).avgWordLength = 0 ∧
    (extractFeatures (preprocessText "".data)).uniqueWords = 1 ∧
    (extractFeatures (preprocessText "".data)).lexicalDiversity = 1 ∧
    calculateReadability "".data = 0 ∧
    (analyzeSentiment (sentimentAnalyze lex) "".data).score = 0 ∧
    (analyzeSentiment (sentimentAnalyze lex) "".data).label = Label.Neutral ∧
    ((predict "".data).positive + (predict "".data).negative +
      (predict "".data).neutral = 1) ∧
    0 ≤ (predict "".data).positive ∧ 0 ≤ (predict "".data).negative ∧
    0 ≤ (predict "".data).neutral := by
  have hsm := applySoftmax_bounds (computeLogits "".data)
  refine ⟨rfl, ?_, rfl, ?_, rfl, rfl, rfl, hsm.2.2.2, hsm.1.1, hsm.2.1.1, hsm.2.2.1.1⟩
  · show jsOrQ (jsDiv ((0 : ℕ) : ℚ) ((1 : ℕ) : ℚ)) 0 = 0
    norm_num [jsDiv, jsOrQ]
  · show jsOrQ (jsDiv ((1 : ℕ) : ℚ) ((1 : ℕ) : ℚ)) 0 = 1
    norm_num [jsDiv, jsOrQ]

/-- Lower-casing never produces an uppercase letter. -/
lemma isUpperB_jsToLower (c : Char) : isUpperB (jsToLower c) = false := by
  by_cases h : isUpperB c = true
  · have hb : 65 ≤ c.toNat ∧ c.toNat ≤ 90 := by
      simpa [isUpperB] using h
    unfold jsToLower
    rw [if_pos h]
    obtain ⟨h1, h2⟩ := hb
    set n := c.toNat with hn
    interval_cases n <;> decide
  · unfold jsToLower
    rw [if_neg h]
    exact Bool.not_eq_true _ |>.mp h

lemma jsToLower_of_not_upper (c : Char) (h : isUpperB c = false) :
    jsToLower c = c := by
  unfold jsToLower
  rw [h]
  rfl

/-- Word characters are never whitespace. -/
lemma isSpaceB_of_word (c : Char) (h : isWordCharB c = true) :
    isSpaceB c = false := by
  simp only [isWordCharB, Bool.or_eq_true, Bool.and_eq_true, decide_eq_true_eq,
    beq_iff_eq] at h
  cases hb : isSpaceB c
  · rfl
  · exfalso
    simp only [isSpaceB, Bool.or_eq_true, beq_iff_eq] at hb
    omega

/-- After lower-casing and the `[^\w\s] → ' '` replacement, every
character is either a non-uppercase word character or whitespace. -/
lemma goodChar_step (c : Char) :
    (isWordCharB (replaceNonWord (jsToLower c)) = true ∧
      isUpperB (replaceNonWord (jsToLower c)) = false) ∨
    isSpaceB (replaceNonWord (jsToLower c)) = true := by
  by_cases hw : isWordCharB (jsToLower c) = true
  · left
    have : replaceNonWord (jsToLower c) = jsToLower c := by
      unfold replaceNonWord
      rw [if_pos (by rw [hw]; rfl)]
    rw [this]
    exact ⟨hw, isUpperB_jsToLower c⟩
  · by_cases hs : isSpaceB (jsToLower c) = true
    · right
      have : replaceNonWord (jsToLower c) = jsToLower c := by
        unfold replaceNonWord
        rw [if_pos (by rw [hs, Bool.or_true])]
      rw [this]
      exact hs
    · right
      have : replaceNonWord (jsToLower c) = ' ' := by
        unfold replaceNonWord
        rw [if_neg]
        simp [Bool.or_eq_true, hw, hs]
      rw [this]
      decide

lemma mapFix {α : Type} (f : α → α) (l : List α) (h : ∀ c ∈ l, f c = c) :
    l.map f = l := by
  induction l with
  | nil => rfl
  | cons c cs ih =>
    rw [List.map_cons, h c (List.mem_cons_self c cs),
      ih (fun d hd => h d (List.mem_cons_of_mem c hd))]

/-- Characters of the whitespace-collapsed string: non-space characters
of the input, or the single space `' '`. -/
lemma collapseWS_mem (l : List Char) :
    ∀ c ∈ collapseWS l, (c ∈ l ∧ isSpaceB c = false) ∨ c = ' ' := by
  induction l with
  | nil => intro c hc; simp [collapseWS] at hc
  | cons a as ih =>
    intro c hc
    simp only [collapseWS] at hc
    by_cases ha : isSpaceB a
    · rw [if_pos ha] at hc
      cases hr : collapseWS as with
      | nil =>
        rw [hr] at hc
        have : c = ' ' := by simpa using hc
        exact Or.inr this
      | cons d ds =>
        rw [hr] at hc
        dsimp only at hc
        by_cases hd : d = ' '
        · rw [if_pos hd] at hc
          rcases ih c (hr ▸ hc) with ⟨hmem, hsp⟩ | hsp
          · exact Or.inl ⟨List.mem_cons_of_mem a hmem, hsp⟩
          · exact Or.inr hsp
        · rw [if_neg hd] at hc
          rcases List.mem_cons.mp hc with hceq | hmem
          · exact Or.inr hceq
          · rcases ih c (hr ▸ hmem) with ⟨hmem2, hsp⟩ | hsp
            · exact Or.inl ⟨List.mem_cons_of_mem a hmem2, hsp⟩
            · exact Or.inr hsp
    · rw [if_neg ha] at hc
      rcases List.mem_cons.mp hc with hceq | hmem
      · subst hceq
        exact Or.inl ⟨List.mem_cons_self _ _, Bool.not_eq_true _ |>.mp ha⟩
      · rcases ih c hmem with ⟨hmem2, hsp⟩ | hsp
        · exact Or.inl ⟨List.mem_cons_of_mem a hmem2, hsp⟩
        · exact Or.inr hsp

/-- The whitespace-collapsed string never contains two adjacent
spaces. -/
lemma collapseWS_chain (l : List Char) :
    List.Chain' (fun a b => ¬ (a = ' ' ∧ b = ' ')) (collapseWS l) := by
  induction l with
  | nil => simp [collapseWS]
  | cons a as ih =>
    simp only [collapseWS]
    by_cases ha : isSpaceB a
    · rw [if_pos ha]
      cases hr : collapseWS as with
      | nil => simp
      | cons d ds =>
        rw [hr] at ih
        dsimp only
        by_cases hd : d = ' '
        · rw [if_pos hd]
          exact ih
        · rw [if_neg hd]
          exact List.chain'_cons.mpr ⟨fun hcon => hd hcon.2, ih⟩
    · rw [if_neg ha]
      cases hr : collapseWS as with
      | nil => simp
      | cons d ds =>
        rw [hr] at ih
        refine List.chain'_cons.mpr ⟨fun hcon => ?_, ih⟩
        rw [hcon.1] at ha
        exact ha (by decide)

/-- Collapsing is the identity on strings whose whitespace is `' '` only
and never doubled. -/
lemma collapseWS_id (l : List Char)
    (hsp : ∀ c ∈ l, isSpaceB c = true → c = ' ')
    (hch : List.Chain' (fun a b => ¬ (a = ' ' ∧ b = ' ')) l) :
    collapseWS l = l := by
  induction l with
  | nil => rfl
  | cons a as ih =>
    have ih' := ih (fun c hc hs => hsp c (List.mem_cons_of_mem a hc) hs) hch.tail
    simp only [collapseWS, ih']
    by_cases ha : isSpaceB a
    · have haeq : a = ' ' := hsp a (List.mem_cons_self a as) ha
      rw [if_pos ha]
      cases as with
      | nil => rw [haeq]
      | cons d ds =>
        have hnd : ¬ (a = ' ' ∧ d = ' ') := (List.chain'_cons.mp hch).1
        have hd : ¬ d = ' ' := fun h => hnd ⟨haeq, h⟩
        dsimp only
        rw [if_neg hd, haeq]
    · rw [if_neg ha]

lemma head_dropWhile_false {α : Type} (p : α → Bool) (l : List α) (c : α)
    (h : (l.dropWhile p).head? = some c) : p c = false := by
  induction l with
  | nil => simp at h
  | cons a as ih =>
    rw [List.dropWhile_cons] at h
    by_cases ha : p a = true
    · rw [if_pos ha] at h
      exact ih h
    · rw [if_neg ha] at h
      have : a = c := by simpa using h
      rw [← this]
      exact Bool.not_eq_true _ |>.mp ha

lemma trimLeft_suffix (l : List Char) : ∃ t, t ++ trimLeft l = l :=
  List.dropWhile_suffix isSpaceB

lemma trimRight_prefix (l : List Char) : ∃ t, trimRight l ++ t = l := by
  obtain ⟨s, hs⟩ := List.dropWhile_suffix (l := l.reverse) isSpaceB
  refine ⟨s.reverse, ?_⟩
  have := congrArg List.reverse hs
  rw [List.reverse_append, List.reverse_reverse] at this
  exact this

lemma chain_of_append_left {α : Type} {R : α → α → Prop} {l₁ l₂ : List α}
    (h : List.Chain' R (l₁ ++ l₂)) : List.Chain' R l₁ :=
  (List.chain'_append.mp h).1

lemma chain_of_append_right {α : Type} {R : α → α → Prop} {l₁ l₂ : List α}
    (h : List.Chain' R (l₁ ++ l₂)) : List.Chain' R l₂ :=
  (List.chain'_append.mp h).2.1

lemma trimWS_chain (l : List Char)
    (h : List.Chain' (fun a b => ¬ (a = ' ' ∧ b = ' ')) l) :
    List.Chain' (fun a b => ¬ (a = ' ' ∧ b = ' ')) (trimWS l) := by
  obtain ⟨t1, ht1⟩ := trimLeft_suffix l
  have h1 : List.Chain' (fun a b => ¬ (a = ' ' ∧ b = ' ')) (trimLeft l) :=
    chain_of_append_right (ht1 ▸ h)
  obtain ⟨t2, ht2⟩ := trimRight_prefix (trimLeft l)
  exact chain_of_append_left (ht2 ▸ h1)

lemma trimWS_mem (l : List Char) : ∀ c ∈ trimWS l, c ∈ l := by
  intro c hc
  obtain ⟨t1, ht1⟩ := trimLeft_suffix l
  obtain ⟨t2, ht2⟩ := trimRight_prefix (trimLeft l)
  rw [← ht1, ← ht2]
  exact List.mem_append.mpr (Or.inr (List.mem_append.mpr (Or.inl hc)))

lemma trimWS_head (l : List Char) (d : Char)
    (h : (trimWS l).head? = some d) : isSpaceB d = false := by
  unfold trimWS at h
  obtain ⟨t2, ht2⟩ := trimRight_prefix (trimLeft l)
  cases htr : trimRight (trimLeft l) with
  | nil => rw [htr] at h; simp at h
  | cons e es =>
    rw [htr] at h
    have hde : e = d := by simpa using h
    rw [htr] at ht2
    have hhead : (trimLeft l).head? = some e := by
      rw [← ht2]
      rfl
    exact hde ▸ head_dropWhile_false isSpaceB l e hhead

lemma trimWS_getLast (l : List Char) (d : Char)
    (h : (trimWS l).getLast? = some d) : isSpaceB d = false := by
  unfold trimWS trimRight at h
  rw [List.getLast?_reverse] at h
  exact head_dropWhile_false isSpaceB (trimLeft l).reverse d h

/-- Trimming is the identity when neither end is whitespace. -/
lemma trimWS_id (l : List Char)
    (hh : ∀ d, l.head? = some d → isSpaceB d = false)
    (hl : ∀ d, l.getLast? = some d → isSpaceB d = false) :
    trimWS l = l := by
  have h1 : trimLeft l = l := by
    cases l with
    | nil => rfl
    | cons c cs =>
      unfold trimLeft
      rw [List.dropWhile_cons, if_neg]
      rw [hh c rfl]
      simp
  unfold trimWS
  rw [h1]
  unfold trimRight
  cases hrev : l.reverse with
  | nil =>
    have : l = [] := by simpa using congrArg List.reverse hrev
    rw [this]
    rfl
  | cons b t =>
    have hlast : l.getLast? = some b := by
      rw [← List.head?_reverse, hrev]
      rfl
    rw [List.dropWhile_cons, if_neg (by rw [hl b hlast]; simp), ← hrev,
      List.reverse_reverse]

/-- C6: the Tokenizer/Segmenter normalisation is idempotent:
`preprocessText (preprocessText t) = preprocessText t` for every string.
The first pass leaves only lowercase word characters and single interior
spaces, and each of the four stages (lower-case, punctuation
replacement, whitespace collapse, trim) fixes such strings. -/
theorem preprocessText_idempotent (t : List Char) :
    preprocessText (preprocessText t) = preprocessText t := by
  have hpre : preprocessText t =
      trimWS (collapseWS ((t.map jsToLower).map replaceNonWord)) := rfl
  have hu_chars : ∀ c ∈ (t.map jsToLower).map replaceNonWord,
      (isWordCharB c = true ∧ isUpperB c = false) ∨ isSpaceB c = true := by
    intro c hc
    rw [List.map_map] at hc
    obtain ⟨x, _, hx⟩ := List.mem_map.mp hc
    rw [← hx, Function.comp_apply]
    exact goodChar_step x
  have hf_chars : ∀ c ∈ preprocessText t,
      (isWordCharB c = true ∧ isUpperB c = false) ∨ c = ' ' := by
    intro c hc
    rw [hpre] at hc
    have hcv : c ∈ collapseWS ((t.map jsToLower).map replaceNonWord) :=
      trimWS_mem _ c hc
    rcases collapseWS_mem _ c hcv with ⟨hmem, hsp⟩ | hsp
    · rcases hu_chars c hmem with hgood | hspace
      · exact Or.inl hgood
      · rw [hspace] at hsp
        exact absurd hsp (by simp)
    · exact Or.inr hsp
  have hf_chain : List.Chain' (fun a b => ¬ (a = ' ' ∧ b = ' '))
      (preprocessText t) := by
    rw [hpre]
    exact trimWS_chain _ (collapseWS_chain _)
  have hf_head : ∀ d, (preprocessText t).head? = some d → isSpaceB d = false := by
    intro d hd
    rw [hpre] at hd
    exact trimWS_head _ d hd
  have hf_last : ∀ d, (preprocessText t).getLast? = some d → isSpaceB d = false := by
    intro d hd
    rw [hpre] at hd
    exact trimWS_getLast _ d hd
  show trimWS (collapseWS (((preprocessText t).map jsToLower).map replaceNonWord)) =
    preprocessText t
  have hmap1 : (preprocessText t).map jsToLower = preprocessText t := by
    apply mapFix
    intro c hc
    rcases hf_chars c hc with ⟨_, hup⟩ | hsp
    · exact jsToLower_of_not_upper c hup
    · rw [hsp]
      decide
  have hmap2 : (preprocessText t).map replaceNonWord = preprocessText t := by
    apply mapFix
    intro c hc
    rcases hf_chars c hc with ⟨hw, _⟩ | hsp
    · unfold replaceNonWord
      rw [if_pos (by rw [hw]; rfl)]
    · rw [hsp]
      decide
  rw [hmap1, hmap2]
  have hcoll : collapseWS (preprocessText t) = preprocessText t := by
    apply collapseWS_id _ _ hf_chain
    intro c hc hs
    rcases hf_chars c hc with ⟨hw, _⟩ | hsp
    · rw [isSpaceB_of_word c hw] at hs
      exact absurd hs (by simp)
    · exact hsp
  rw [hcoll]
  exact trimWS_id _ hf_head hf_last
